import Mathlib

/-
Verification development for the skills import/update/storage subsystem and the
external transcript writer of the link-agents repository.

Source strings are modelled as lists of characters (JStr), so that the
character-level operations of the source (sanitization, splitting, trimming)
can be rendered faithfully.  Effectful collaborators of the code (clock,
random ids, network responses, git commands, filesystem contents) are passed
in explicitly as parameters of the embedded functions.  Loops that are
unbounded in the source are rendered with an explicit fuel argument whose
initial value provably suffices.
-/

namespace LA

abbrev JStr := List Char

/-- Whitespace test used by the trim model (ASCII subset of the JS `trim` set). -/
def isWsChar (c : Char) : Bool :=
  c == ' ' || c == '\t' || c == '\n' || c == '\r'

/-- Model of `String.prototype.trim`: drop whitespace from both ends. -/
def trimL (s : JStr) : JStr :=
  ((s.dropWhile isWsChar).reverse.dropWhile isWsChar).reverse

def trimS (s : String) : String :=
  String.mk (trimL s.toList)

/-- Split a list at the first occurrence of the (nonempty) pattern `pat`,
returning the part before and the part after the pattern. -/
def splitOnPat (pat : JStr) : JStr → Option (JStr × JStr)
  | [] => none
  | c :: rest =>
    if pat.isPrefixOf (c :: rest) then some ([], (c :: rest).drop pat.length)
    else match splitOnPat pat rest with
      | some (b, a) => some (c :: b, a)
      | none => none

/-- Split a list at the first occurrence of the character `ch`. -/
def splitAtChar (ch : Char) : JStr → Option (JStr × JStr)
  | [] => none
  | c :: rest =>
    if c = ch then some ([], rest)
    else match splitAtChar ch rest with
      | some (b, a) => some (c :: b, a)
      | none => none

/-- Model of `String.prototype.split` with a single-character separator. -/
def splitOnChar (sep : Char) : JStr → List JStr
  | [] => [[]]
  | c :: rest =>
    let r := splitOnChar sep rest
    if c = sep then [] :: r
    else match r with
      | [] => [[c]]
      | h :: t => (c :: h) :: t

/-- Strip the literal `pat` from the front of `s`, failing when it is absent. -/
def dropLit (pat : JStr) (s : JStr) : Option JStr :=
  if pat.isPrefixOf s then some (s.drop pat.length) else none

-- ============================================================
-- Slug helpers (src/packages/shared/src/skills/import.ts)
-- ============================================================

/-- Character class `[a-z0-9-]` of the sanitization regex. -/
def isSlugChar (c : Char) : Bool :=
  (97 ≤ c.toNat && c.toNat ≤ 122) || (48 ≤ c.toNat && c.toNat ≤ 57) || c.toNat == 45

/-- ASCII lower-casing of one character (model of `toLowerCase`). -/
def toLowerChar (c : Char) : Char :=
  if 65 ≤ c.toNat ∧ c.toNat ≤ 90 then Char.ofNat (c.toNat + 32) else c

/-- Per-character effect of `toLowerCase()` followed by the replacement of
characters outside `[a-z0-9-]` with a dash. -/
def slugMapChar (c : Char) : Char :=
  let lc := toLowerChar c
  if isSlugChar lc then lc else '-'

/-- Model of the replacement of every dash run with a single dash. -/
def collapseDashes : JStr → JStr
  | [] => []
  | [c] => [c]
  | a :: b :: rest =>
    if a = '-' ∧ b = '-' then collapseDashes (b :: rest)
    else a :: collapseDashes (b :: rest)

/-- Drop one leading dash, as the anchored alternative of the edge regex does. -/
def dropDashStart : JStr → JStr
  | [] => []
  | c :: rest => if c = '-' then rest else c :: rest

/-- Drop one leading and one trailing dash. -/
def stripEdgeDashes (s : JStr) : JStr :=
  (dropDashStart (dropDashStart s).reverse).reverse

/-- Model of `sanitizeSlug`: lower-case, replace characters outside
`[a-z0-9-]` by a dash, collapse dash runs, strip one edge dash on each side. -/
def sanitizeSlug (s : JStr) : JStr :=
  stripEdgeDashes (collapseDashes (s.map slugMapChar))

/-- A slug consisting only of lower-case alphanumerics and hyphens. -/
def isSanitizedSlug (s : JStr) : Bool := s.all isSlugChar

/-- Decimal digit character, code point 48 + k for k below 10. -/
def digitChar (k : Nat) : Char := Char.ofNat (48 + k)

/-- Fuel-driven decimal rendering; fuel at least the number itself suffices. -/
def natCharsAux : Nat → Nat → JStr
  | 0, n => [digitChar (n % 10)]
  | fuel+1, n => if n < 10 then [digitChar n] else natCharsAux fuel (n / 10) ++ [digitChar (n % 10)]

/-- Decimal rendering of a natural number, as JS `String(n)` produces it. -/
def natChars (n : Nat) : JStr := natCharsAux n n

/-- The conflict-suffixed candidate `base-k` built by the resolution loop. -/
def mkCand (base : JStr) (k : Nat) : JStr := base ++ '-' :: natChars k

/-- The while loop of `resolveSlugConflict`: try `base-counter`, `base-(counter+1)`, ...
The fuel given by the wrapper provably always suffices (pigeonhole on the
workspace contents), so the fuel-exhausted branch is unreachable. -/
def resolveAux (existing : List JStr) (base : JStr) : Nat → Nat → JStr
  | 0, counter => mkCand base counter
  | fuel+1, counter =>
    let cand := mkCand base counter
    if cand ∈ existing then resolveAux existing base fuel (counter+1) else cand

/-- Model of `resolveSlugConflict`: the workspace is abstracted to the list of
slugs for which `skillExists` holds. -/
def resolveSlugConflict (existing : List JStr) (base : JStr) : JStr :=
  if base ∈ existing then resolveAux existing base (existing.length + 1) 1 else base

/-- Number of occupied candidates `base-counter .. base-(counter+fuel-1)`. -/
def occCount (existing : List JStr) (base : JStr) : Nat → Nat → Nat
  | _, 0 => 0
  | counter, fuel+1 =>
    (if mkCand base counter ∈ existing then 1 else 0) + occCount existing base (counter+1) fuel

/-- Model of `path.basename`: strip trailing slashes, then keep the last segment. -/
def basenameChars (p : JStr) : JStr :=
  let q := p.reverse.dropWhile (fun c => c == '/')
  (q.takeWhile (fun c => c != '/')).reverse

/-- Model of `basename(p, extname(p))`: drop the extension starting at the last
dot, unless that dot is the first character of the basename. -/
def stripExtension (b : JStr) : JStr :=
  let r := b.reverse
  let pre := r.takeWhile (fun c => c != '.')
  if pre.length = r.length then b
  else
    let idx := b.length - 1 - pre.length
    if idx = 0 then b else b.take idx

/-- Model of `extractSlugFromPath`: sanitized basename without extension. -/
def extractSlugFromPath (p : JStr) : JStr :=
  sanitizeSlug (stripExtension (basenameChars p))

/-- Last element of `split(sep = slash)`, i.e. the suffix after the last slash. -/
def lastSegment (u : JStr) : JStr :=
  (u.reverse.takeWhile (fun c => c != '/')).reverse

/-- Model of `replace` with the literal dot-git pattern: removes the first
occurrence only. -/
def removeFirstDotGit (s : JStr) : JStr :=
  match splitOnPat (".git".toList) s with
  | some (b, a) => b ++ a
  | none => s

/-- Repo-name slug candidate of the git importer
(`gitUrl.split(slash).pop().replace(dotGit, empty) or skill-fallback`). -/
def gitRepoName (u : JStr) : JStr :=
  let r := removeFirstDotGit (lastSegment u)
  if r = [] then ("skill".toList) else r

/-- Final slug of a zip or folder import, whose base slug comes from a path. -/
def importSlugFromPathBased (existing : List JStr) (p : JStr) : JStr :=
  resolveSlugConflict existing (extractSlugFromPath p)

/-- Final slug of a git import. -/
def importSlugGit (existing : List JStr) (u : JStr) : JStr :=
  resolveSlugConflict existing (sanitizeSlug (gitRepoName u))

/-- Base slug of the file importer: a non-empty caller-supplied hint is used
verbatim (JS or-operator treats the empty string as absent), otherwise the
slug is derived from the file path. -/
def fileBaseSlug (hint : Option JStr) (filePath : JStr) : JStr :=
  match hint with
  | some h => if h = [] then extractSlugFromPath filePath else h
  | none => extractSlugFromPath filePath

/-- Final slug of a file import. -/
def importSlugFile (existing : List JStr) (hint : Option JStr) (filePath : JStr) : JStr :=
  resolveSlugConflict existing (fileBaseSlug hint filePath)

-- ============================================================
-- Catalog fetcher (fetchSkillsCatalog and fetchWithRetry)
-- ============================================================

/-- Model of the frontmatter name regex: first occurrence of the name key,
whitespace skipped, the rest of the line captured (nonempty). -/
def extractNameRaw (fm : JStr) : Option JStr :=
  match splitOnPat ("name:".toList) fm with
  | none => none
  | some (_, rest) =>
    let captured := (rest.dropWhile isWsChar).takeWhile (fun c => c != '\n' && c != '\r')
    if captured = [] then none else some captured

def quoteCharA : Char := Char.ofNat 34

def quoteCharB : Char := Char.ofNat 39

/-- Drop one leading quote character (double or single). -/
def dropQuoteStart : JStr → JStr
  | [] => []
  | c :: rest => if c = quoteCharA ∨ c = quoteCharB then rest else c :: rest

/-- Model of the quote-stripping replace: one leading and one trailing quote. -/
def stripQuotes (s : JStr) : JStr :=
  (dropQuoteStart (dropQuoteStart s).reverse).reverse

/-- ASCII upper-casing of one character. -/
def toUpperChar (c : Char) : Char :=
  if 97 ≤ c.toNat ∧ c.toNat ≤ 122 then Char.ofNat (c.toNat - 32) else c

/-- Model of `charAt(0).toUpperCase() + slice(1)`. -/
def capitalizeWord (w : JStr) : JStr :=
  match w with
  | [] => []
  | c :: rest => toUpperChar c :: rest

/-- Spec-side Title-Case operation: split on dashes, capitalize, join by spaces. -/
def titleCaseSlug (s : JStr) : JStr :=
  List.intercalate ([' ']) ((splitOnChar '-' s).map capitalizeWord)

/-- Model of the display-name computation of `fetchSkillsCatalog`: the raw name
is the extracted frontmatter name (trimmed, quotes stripped) or else the
directory name, and the displayed name splits it on dashes, capitalizes each
word and joins with spaces. -/
def catalogEntryName (fm dirName : JStr) : JStr :=
  let rawName := match extractNameRaw fm with
    | some n => stripQuotes (trimL n)
    | none => dirName
  List.intercalate ([' ']) ((splitOnChar '-' rawName).map capitalizeWord)

/-- One observed outcome of a single `fetch` call. -/
inductive FetchR
  | netErr
  | resp (status : Nat)
deriving DecidableEq

/-- Result of `fetchWithRetry`: a returned response (possibly non-2xx after the
ceiling), the rate-limit error, or the rethrown network error. -/
inductive FetchResult
  | returned (status : Nat)
  | rateLimitError
  | networkThrow
deriving DecidableEq

def MAX_RETRIES : Nat := 3

def isRateLimited : FetchR → Bool
  | .netErr => false
  | .resp st => st == 403 || st == 429

def statusOk (st : Nat) : Bool := 200 ≤ st && st < 300

/-- Model of `fetchWithRetry`.  The environment is the sequence of outcomes of
the successive fetch calls, indexed by attempt number; `remaining` is the
number of retries still allowed (MAX_RETRIES minus the attempt index).  The
second component counts the fetch calls made. -/
def fwrAux (responses : Nat → FetchR) : Nat → Nat → FetchResult × Nat
  | attempt, 0 =>
    match responses attempt with
    | .netErr => (.networkThrow, attempt + 1)
    | .resp st =>
      if st = 403 ∨ st = 429 then (.rateLimitError, attempt + 1)
      else (.returned st, attempt + 1)
  | attempt, r+1 =>
    match responses attempt with
    | .netErr => fwrAux responses (attempt+1) r
    | .resp st =>
      if st = 403 ∨ st = 429 then fwrAux responses (attempt+1) r
      else if statusOk st then (.returned st, attempt + 1)
      else fwrAux responses (attempt+1) r

def fetchWithRetryModel (responses : Nat → FetchR) : FetchResult × Nat :=
  fwrAux responses 0 MAX_RETRIES

/-- The response sequence of the spec scenario: rate-limited three times, then 200. -/
def rlThenOkResponses : Nat → FetchR :=
  fun i => if i < 3 then FetchR.resp 403 else FetchR.resp 200

-- ============================================================
-- Skill source records, update checker and updater
-- ============================================================

structure SkillSourceR where
  type : String
  url : Option String := none
  version : Option String := none
  lastChecked : Option String := none
  updateAvailable : Option Bool := none
  installedAt : Option String := none
  modified : Option Bool := none
deriving DecidableEq

structure CatalogEntryR where
  slug : String
  version : Option String := none
deriving DecidableEq

structure CatalogR where
  skills : List CatalogEntryR
deriving DecidableEq

structure LoadedSkillR where
  slug : String
  source : Option SkillSourceR := none
deriving DecidableEq

/-- Short remote hash computed by the git branch of `checkSkillUpdate`:
trim the command output, keep the part before the first tab, take 7 chars. -/
def gitRemoteShort (out : String) : String :=
  String.mk (((trimL out.toList).takeWhile (fun c => c != '\t')).take 7)

/-- Model of `checkSkillUpdate`.  The git `ls-remote` call is abstracted as its
observed stdout (`none` when the command fails).  The function is total: every
throwing path of the source is caught and turned into `false`. -/
def checkSkillUpdateModel (skill : LoadedSkillR) (catalog : Option CatalogR)
    (lsRemote : Option String) : Bool :=
  match skill.source with
  | none => false
  | some src =>
    if src.type = "skillssh" then
      match catalog with
      | none => false
      | some c =>
        match c.skills.find? (fun e => e.slug == skill.slug) with
        | none => false
        | some e => decide (e.version ≠ src.version)
    else if src.type = "git" then
      match src.url with
      | none => false
      | some _ =>
        match lsRemote with
        | none => false
        | some out =>
          let rc := gitRemoteShort out
          if rc = "" then false else decide (some rc ≠ src.version)
    else false

inductive UpdEvent
  | delete
  | reimport
deriving DecidableEq

inductive UpdError
  | noSource
  | noUrl
  | notInCatalog
  | cannotUpdate (t : String)
  | importFailed
deriving DecidableEq

structure UpdOut where
  events : List UpdEvent
  result : Except UpdError Unit
  ws : List String

/-- Model of `updateSkill` (the update checker).  The workspace is the list of
installed slugs; `reimport` abstracts the delegated importer call, mapping the
workspace after deletion to either the workspace after a successful re-import
or an import error.  The event list records the order of the destructive
delete and of the re-import attempt. -/
def updateSkillModel (ws : List String) (skill : LoadedSkillR) (catalog : Option CatalogR)
    (reimport : List String → Except UpdError (List String)) : UpdOut :=
  match skill.source with
  | none => { events := [], result := .error .noSource, ws := ws }
  | some src =>
    match src.url with
    | none => { events := [], result := .error .noUrl, ws := ws }
    | some _ =>
      let ws1 := ws.filter (fun x => !(x == skill.slug))
      if src.type = "skillssh" then
        match catalog.bind (fun c => c.skills.find? (fun e => e.slug == skill.slug)) with
        | none => { events := [.delete], result := .error .notInCatalog, ws := ws1 }
        | some _ =>
          match reimport ws1 with
          | .ok ws2 => { events := [.delete, .reimport], result := .ok (), ws := ws2 }
          | .error er => { events := [.delete, .reimport], result := .error er, ws := ws1 }
      else if src.type = "git" then
        match reimport ws1 with
        | .ok ws2 => { events := [.delete, .reimport], result := .ok (), ws := ws2 }
        | .error er => { events := [.delete, .reimport], result := .error er, ws := ws1 }
      else { events := [.delete], result := .error (.cannotUpdate src.type), ws := ws1 }

-- ============================================================
-- URL importer, GitHub tree branch (importSkillFromUrl)
-- ============================================================

structure GhTreeRef where
  owner : JStr
  repo : JStr
  kind : JStr
  branch : JStr
  subpath : JStr
deriving DecidableEq

/-- Model of the GitHub tree/blob URL regex of `importSkillFromUrl`:
scheme, host, owner, repo, tree-or-blob, branch, nonempty subpath. -/
def parseGithubTreeUrl (url : JStr) : Option GhTreeRef :=
  let afterScheme : Option JStr :=
    match dropLit ("https://".toList) url with
    | some r => some r
    | none => dropLit ("http://".toList) url
  match afterScheme with
  | none => none
  | some r =>
    match dropLit ("github.com/".toList) r with
    | none => none
    | some rest =>
      match splitOnChar '/' rest with
      | o :: rp :: k :: b :: pathSegs =>
        let p := List.intercalate (['/']) pathSegs
        if o ≠ [] ∧ rp ≠ [] ∧ (k = ("tree".toList) ∨ k = ("blob".toList)) ∧ b ≠ [] ∧ p ≠ []
        then some { owner := o, repo := rp, kind := k, branch := b, subpath := p }
        else none
      | _ => none

/-- Filesystem state of one subpath of the cloned repository. -/
inductive SubpathState
  | missing
  | noSkillFile
  | hasSkillFile
deriving DecidableEq

/-- Partial source-metadata object passed down to a delegated importer;
present fields override the defaults of the delegate, as the object spread does. -/
structure SkillSourcePartial where
  type : Option String := none
  url : Option String := none
  version : Option String := none
  lastChecked : Option String := none
  updateAvailable : Option Bool := none
  installedAt : Option String := none
  modified : Option Bool := none
deriving DecidableEq

/-- Model of the object spread building the persisted source metadata:
each field present in the partial overrides the default. -/
def mergeSkillSource (defaults : SkillSourceR) (p : SkillSourcePartial) : SkillSourceR :=
  { type := p.type.getD defaults.type
    url := match p.url with | some u => some u | none => defaults.url
    version := match p.version with | some v => some v | none => defaults.version
    lastChecked := match p.lastChecked with | some v => some v | none => defaults.lastChecked
    updateAvailable := match p.updateAvailable with | some v => some v | none => defaults.updateAvailable
    installedAt := match p.installedAt with | some v => some v | none => defaults.installedAt
    modified := match p.modified with | some v => some v | none => defaults.modified }

inductive TreeImportResult
  | notTreeUrl
  | cloneFailed
  | pathNotFound (p : JStr)
  | noSkillMdAt (p : JStr)
  | imported (subpath : JStr) (provenance : SkillSourceR)
deriving DecidableEq

/-- Model of the GitHub-tree branch of `importSkillFromUrl`: trim the url,
match the tree regex, clone (environment flag), check the named subpath,
and on success delegate to the folder importer on that subpath with a
partial source of type git carrying the trimmed url.  The delegate builds
the persisted provenance by spreading the partial over its own defaults. -/
def importSkillFromUrlTreeModel (url : String) (cloneOk : Bool)
    (repo : JStr → SubpathState) (now : String) : TreeImportResult :=
  let t := trimS url
  match parseGithubTreeUrl t.toList with
  | none => .notTreeUrl
  | some g =>
    if cloneOk then
      match repo g.subpath with
      | .missing => .pathNotFound g.subpath
      | .noSkillFile => .noSkillMdAt g.subpath
      | .hasSkillFile =>
        .imported g.subpath
          (mergeSkillSource
            { type := "folder", installedAt := some now }
            { type := some "git", url := some t })
    else .cloneFailed

-- ============================================================
-- Skill store (storage.ts): load / update / sidecar handling
-- ============================================================

/-- Icon allow-list check.  Modelled from the spec: the icon utilities
(`validateIconValue` in `utils/icon.ts`) are not under src; the spec states
that the icon field is validated against an allow-list accepting an emoji
literal or an absolute URL only, with relative paths and inline markup
rejected (rejection degrades to an absent icon, never a load failure). -/
def isIconUrlStr (s : String) : Bool :=
  (("http://".toList).isPrefixOf s.toList) || (("https://".toList).isPrefixOf s.toList)

/-- Modelled from the spec: emoji-literal test, approximated as every character
lying in the emoji code-point ranges. -/
def isEmojiLiteral (s : String) : Bool :=
  s.toList ≠ [] && s.toList.all (fun c => 0x1F000 ≤ c.toNat || (0x2600 ≤ c.toNat && c.toNat ≤ 0x27BF))

/-- Modelled from the spec: `validateIconValue` keeps an emoji or absolute URL
and drops anything else. -/
def validateIconValue (icon : Option String) : Option String :=
  match icon with
  | none => none
  | some s => if s ≠ "" ∧ (isIconUrlStr s ∨ isEmojiLiteral s = true) then some s else none

structure SkillMetadataM where
  name : String
  description : String
  globs : Option (List String) := none
  alwaysAllow : Option (List String) := none
  icon : Option String := none
deriving DecidableEq

/-- On-disk SKILL.md contents, as the structured pair produced by the
frontmatter serializer and consumed by the frontmatter parser (the external
gray-matter serializer/parser pair is modelled as exact inverses). -/
structure SkillFileM where
  fmName : String
  fmDescription : String
  fmGlobs : Option (List String) := none
  fmAlwaysAllow : Option (List String) := none
  fmIcon : Option String := none
  body : String
deriving DecidableEq

/-- State of the provenance sidecar file. -/
inductive SidecarM
  | missing
  | corrupt
  | valid (s : SkillSourceR)
deriving DecidableEq

structure SkillDirM where
  skillFile : Option SkillFileM
  sidecar : SidecarM
deriving DecidableEq

structure LoadedSkillStoreM where
  metadata : SkillMetadataM
  content : String
  source : Option SkillSourceR
deriving DecidableEq

/-- Model of `parseSkillFile`: requires nonempty name and description,
validates the icon against the allow-list. -/
def parseSkillFileM (f : SkillFileM) : Option (SkillMetadataM × String) :=
  if f.fmName = "" ∨ f.fmDescription = "" then none
  else some
    ({ name := f.fmName, description := f.fmDescription, globs := f.fmGlobs,
       alwaysAllow := f.fmAlwaysAllow, icon := validateIconValue f.fmIcon }, f.body)

/-- Model of `loadSkill`: absent directory or file or unparsable frontmatter
yields absent; a corrupt or missing sidecar degrades to no source. -/
def loadSkillM (dir : Option SkillDirM) : Option LoadedSkillStoreM :=
  match dir with
  | none => none
  | some d =>
    match d.skillFile with
    | none => none
    | some f =>
      match parseSkillFileM f with
      | none => none
      | some (md, body) =>
        some { metadata := md, content := body,
               source := match d.sidecar with | .valid s => some s | _ => none }

/-- The fresh local source record created when the sidecar is missing or unparsable. -/
def freshLocalSource (now : String) : SkillSourceR :=
  { type := "local", modified := some true, installedAt := some now }

/-- Model of the store `updateSkill`: absent skill returns null; empty name or
description is a validation error raised before the write; otherwise
SKILL.md is rewritten with validated fields, the sidecar gets its modified
flag set (or is recreated as local), and the resulting skill is reloaded. -/
def updateSkillStoreM (dir : Option SkillDirM) (md : SkillMetadataM) (content : String)
    (now : String) : Option SkillDirM × Except Unit (Option LoadedSkillStoreM) :=
  match dir with
  | none => (none, .ok none)
  | some d =>
    match d.skillFile with
    | none => (some d, .ok none)
    | some _ =>
      if md.name = "" ∨ md.description = "" then (some d, .error ())
      else
        let vIcon := validateIconValue md.icon
        let f : SkillFileM :=
          { fmName := md.name, fmDescription := md.description, fmGlobs := md.globs,
            fmAlwaysAllow := md.alwaysAllow, fmIcon := vIcon, body := content }
        let sc : SidecarM :=
          match d.sidecar with
          | .valid s => .valid { s with modified := some true }
          | _ => .valid (freshLocalSource now)
        let d2 : SkillDirM := { skillFile := some f, sidecar := sc }
        (some d2, .ok (loadSkillM (some d2)))

-- ============================================================
-- External transcript writer (ClaudeCodeWriter)
-- ============================================================

inductive CBlock
  | text (s : String)
  | thinking (s : String)
deriving DecidableEq

inductive MsgContent
  | str (s : String)
  | blocks (bs : List CBlock)
deriving DecidableEq

/-- One transcript line, restricted to the fields the embedded functions read
or write (type, uuid, parent link, message content, custom title, timestamp,
git branch, working directory). -/
structure TEntry where
  etype : String
  uuid : Option String := none
  parentUuid : Option String := none
  content : Option MsgContent := none
  customTitle : Option String := none
  timestamp : Option String := none
  gitBranch : Option String := none
  cwd : Option String := none
deriving DecidableEq

structure SMessage where
  id : String
  mtype : String
  content : String
  timestamp : Option Nat := none
deriving DecidableEq

structure SSession where
  name : Option String := none
  messages : List SMessage
deriving DecidableEq

/-- Writer environment: the clock (current time and epoch-millis rendering),
the detected git branch and the resolved working directory. -/
structure WEnv where
  now : String
  iso : Nat → String
  gitBranch : Option String
  workDir : String

def thinkPat : JStr := "[Thinking: ".toList

/-- One step of the thinking-block regex scan: the text before the opening
marker, the non-greedy inner text up to the first closing bracket, and the
remainder. -/
def findThinking (s : JStr) : Option (JStr × JStr × JStr) :=
  match splitOnPat thinkPat s with
  | none => none
  | some (before, rest) =>
    match splitAtChar ']' rest with
    | none => none
    | some (inner, after) => some (before, inner, after)

/-- The regex loop of `convertMessage`, with fuel (the wrapper passes more fuel
than the input length, so exhaustion is unreachable: every match consumes at
least the opening marker). -/
def parseThinkingAux : Nat → JStr → List CBlock
  | 0, s => if trimL s ≠ [] then [CBlock.text (String.mk (trimL s))] else []
  | fuel+1, s =>
    match findThinking s with
    | none => if trimL s ≠ [] then [CBlock.text (String.mk (trimL s))] else []
    | some (before, inner, after) =>
      (if trimL before ≠ [] then [CBlock.text (String.mk (trimL before))] else [])
        ++ CBlock.thinking (String.mk inner) :: parseThinkingAux fuel after

/-- Model of the content reconstruction of `convertMessage`: split the flat
text on the thinking-block convention; when nothing was produced, emit one
text block holding the whole content verbatim. -/
def parseThinkingBlocks (s : String) : List CBlock :=
  let bs := parseThinkingAux (s.toList.length + 1) s.toList
  if bs = [] then [CBlock.text s] else bs

/-- Model of `convertMessage`: one transcript line per stored message, with the
message id as uuid and the threaded parent link. -/
def convertMessageModel (env : WEnv) (m : SMessage) (parent : Option String) : TEntry :=
  { etype := m.mtype
    uuid := some m.id
    parentUuid := parent
    content := some (.blocks (parseThinkingBlocks m.content))
    timestamp := some (match m.timestamp with
      | some t => if t ≠ 0 then env.iso t else env.now
      | none => env.now)
    cwd := some env.workDir }

def isMsgType (t : String) : Bool := t == "user" || t == "assistant"

/-- The message loop of `buildTranscriptLines`: skip non-chat messages, thread
the parent uuid through every converted message (also the deduplicated ones),
and keep only messages whose uuid is not already on disk. -/
def buildLinesAux (env : WEnv) (uuids : Option (List String)) :
    List SMessage → Option String → List TEntry
  | [], _ => []
  | m :: rest, parent =>
    if isMsgType m.mtype then
      let line0 := convertMessageModel env m parent
      let line := match env.gitBranch with
        | some b => { line0 with gitBranch := some b }
        | none => line0
      let keep : Bool := match uuids with
        | none => true
        | some us => !(us.contains m.id)
      (if keep then [line] else []) ++ buildLinesAux env uuids rest (some m.id)
    else buildLinesAux env uuids rest parent

/-- The file-history-snapshot marker entry (it carries no uuid field). -/
def snapshotEntry : TEntry := { etype := "file-history-snapshot" }

/-- Model of `buildTranscriptLines`. -/
def buildTranscriptLinesModel (env : WEnv) (s : SSession) (uuids : Option (List String))
    (includeSnapshot : Bool) (startParent : Option String) : List TEntry :=
  (if includeSnapshot then [snapshotEntry] else [])
    ++ buildLinesAux env uuids s.messages startParent

/-- Model of `collectExistingUuids`. -/
def collectExistingUuidsModel (es : List TEntry) : List String :=
  es.filterMap (fun e => e.uuid)

/-- Model of `getLastMessageUuid`: scan from the end, skip non-chat lines,
return the first uuid found. -/
def getLastMessageUuidModel (es : List TEntry) : Option String :=
  (es.reverse.find? (fun e => isMsgType e.etype && e.uuid.isSome)).bind (fun e => e.uuid)

/-- Model of `getLastCustomTitle`. -/
def getLastCustomTitleModel (es : List TEntry) : Option String :=
  (es.reverse.find? (fun e => e.etype == "custom-title" && e.customTitle.isSome)).bind
    (fun e => e.customTitle)

/-- Model of `getMessageLines`. -/
def getMessageLinesModel (es : List TEntry) : List TEntry :=
  es.filter (fun e => isMsgType e.etype)

/-- Whether one transcript line contributes to the index message count:
a chat line with some nonempty text block (user lines also count with a
nonempty plain-string content). -/
def entryCountsAsMessage (e : TEntry) : Bool :=
  if e.etype == "user" then
    match e.content with
    | some (.str s) => trimS s != ""
    | some (.blocks bs) => bs.any (fun b => match b with
        | .text t => trimS t != ""
        | _ => false)
    | none => false
  else if e.etype == "assistant" then
    match e.content with
    | some (.blocks bs) => bs.any (fun b => match b with
        | .text t => trimS t != ""
        | _ => false)
    | _ => false
  else false

/-- Model of `countTranscriptMessages`. -/
def countTranscriptMessagesModel (es : List TEntry) : Nat :=
  (es.filter entryCountsAsMessage).length

/-- Model of `normalizeCustomTitle`. -/
def normalizeCustomTitleModel (name : Option String) : Option String :=
  match name with
  | none => none
  | some n => if trimS n = "" then none else some (trimS n)

/-- Model of `buildCustomTitleLine`. -/
def buildCustomTitleLineModel (title : String) : TEntry :=
  { etype := "custom-title", customTitle := some title }

/-- First-export path of `exportSession` (no transcript on disk yet):
the full converted line list, snapshot first. -/
def exportFreshLines (env : WEnv) (s : SSession) : List TEntry :=
  buildTranscriptLinesModel env s none true none

/-- The whole transcript file written by the first export: converted lines
followed by the custom-title entry when the session carries a title. -/
def exportFreshFile (env : WEnv) (s : SSession) : List TEntry :=
  exportFreshLines env s ++
    (match normalizeCustomTitleModel s.name with
     | some t => [buildCustomTitleLineModel t]
     | none => [])

/-- Message count recorded in the session index by the first export
(`updateSessionsIndex` receives the converted lines without metadata lines). -/
def exportFreshIndexCount (env : WEnv) (s : SSession) : Nat :=
  countTranscriptMessagesModel (exportFreshLines env s)

/-- Second-export path (transcript already on disk): only messages whose uuid
is absent from the file are converted, anchored at the last message uuid. -/
def exportExistingNewLines (env : WEnv) (s : SSession) (existing : List TEntry) : List TEntry :=
  buildTranscriptLinesModel env s (some (collectExistingUuidsModel existing)) false
    (getLastMessageUuidModel existing)

/-- The metadata delta of the second export: one custom-title entry exactly
when the session has a title differing from the last one on disk. -/
def exportExistingMetaLines (s : SSession) (existing : List TEntry) : List TEntry :=
  match normalizeCustomTitleModel s.name with
  | some t =>
    if getLastCustomTitleModel existing = some t then []
    else [buildCustomTitleLineModel t]
  | none => []

/-- The transcript file after an export onto an existing file. -/
def exportExistingFile (env : WEnv) (s : SSession) (existing : List TEntry) : List TEntry :=
  existing ++ exportExistingNewLines env s existing ++ exportExistingMetaLines s existing

/-- Message count recorded in the session index by an export onto an existing
file (`updateSessionsIndex` receives the message lines of the whole file). -/
def exportExistingIndexCount (env : WEnv) (s : SSession) (existing : List TEntry) : Nat :=
  countTranscriptMessagesModel (getMessageLinesModel (exportExistingFile env s existing))

-- ============================================================
-- Concrete example values used by counterexamples and witnesses
-- ============================================================

/-- A skill installed from the catalog with stored version 1. -/
def cexSkillC6 : LoadedSkillR :=
  { slug := "s", source := some { type := "skillssh", version := some "1" } }

/-- A catalog holding two entries of the same slug, the first with the stored
version and the second with a different one. -/
def cexCatalogC6 : CatalogR :=
  { skills := [ { slug := "s", version := some "1" }, { slug := "s", version := some "2" } ] }

/-- An installed skill directory with a missing sidecar. -/
def cexDirC9 : SkillDirM :=
  { skillFile := some { fmName := "old", fmDescription := "olddesc", body := "oldbody" },
    sidecar := SidecarM.missing }

/-- Edited metadata whose icon is a relative path, rejected by the allow-list. -/
def cexMdC9 : SkillMetadataM :=
  { name := "a", description := "b", icon := some "./x.png" }

/-- A git provenance record with url and version. -/
def exSrcC10 : SkillSourceR := { type := "git", url := some "u", version := some "v" }

/-- An installed skill directory whose sidecar holds a git provenance. -/
def exDirC10 : SkillDirM :=
  { skillFile := some { fmName := "n", fmDescription := "de", body := "b" },
    sidecar := SidecarM.valid exSrcC10 }

-- ============================================================
-- Theorems
-- ============================================================

theorem fwrAux_count_le (responses : Nat → FetchR) :
    ∀ remaining attempt, (fwrAux responses attempt remaining).2 ≤ attempt + remaining + 1 := by
  intro remaining
  induction remaining with
  | zero =>
    intro attempt
    cases hr : responses attempt with
    | netErr => simp [fwrAux, hr]
    | resp st =>
      simp only [fwrAux, hr]
      split <;> simp
  | succ r ih =>
    intro attempt
    cases hr : responses attempt with
    | netErr =>
      simp only [fwrAux, hr]
      have := ih (attempt + 1)
      omega
    | resp st =>
      simp only [fwrAux, hr]
      split
      · have := ih (attempt + 1)
        omega
      · split
        · simp
        · have := ih (attempt + 1)
          omega

theorem fwrAux_all_rate_limited (responses : Nat → FetchR) :
    ∀ remaining attempt,
      (∀ i, attempt ≤ i → i ≤ attempt + remaining → isRateLimited (responses i) = true) →
      (fwrAux responses attempt remaining).1 = FetchResult.rateLimitError := by
  intro remaining
  induction remaining with
  | zero =>
    intro attempt h
    have h0 := h attempt le_rfl (by omega)
    cases hr : responses attempt with
    | netErr => rw [hr] at h0; simp [isRateLimited] at h0
    | resp st =>
      rw [hr] at h0
      simp only [isRateLimited, Bool.or_eq_true, beq_iff_eq] at h0
      simp only [fwrAux, hr]
      rw [if_pos h0]
  | succ r ih =>
    intro attempt h
    have h0 := h attempt le_rfl (by omega)
    cases hr : responses attempt with
    | netErr => rw [hr] at h0; simp [isRateLimited] at h0
    | resp st =>
      rw [hr] at h0
      simp only [isRateLimited, Bool.or_eq_true, beq_iff_eq] at h0
      simp only [fwrAux, hr]
      rw [if_pos h0]
      exact ih (attempt + 1) (fun i h1 h2 => h i (by omega) (by omega))

/-- C7: fetchWithRetry makes at most MAX_RETRIES = 3 additional attempts (4
fetch calls total); on the response sequence 403, 403, 403, 200 it returns the
final 200 response on the fourth call; and when every attempt up to the ceiling
is rate-limited (status 403 or 429) it ends in the rate-limit-specific error
instead of returning a response. -/
theorem C7_fetchWithRetry_policy :
    (∀ responses, (fetchWithRetryModel responses).2 ≤ MAX_RETRIES + 1) ∧
    fetchWithRetryModel rlThenOkResponses = (FetchResult.returned 200, 4) ∧
    (∀ responses, (∀ i, i ≤ MAX_RETRIES → isRateLimited (responses i) = true) →
      (fetchWithRetryModel responses).1 = FetchResult.rateLimitError) := by
  refine ⟨?_, ?_, ?_⟩
  · intro responses
    have h := fwrAux_count_le responses MAX_RETRIES 0
    simpa [fetchWithRetryModel, MAX_RETRIES] using h
  · rfl
  · intro responses h
    exact fwrAux_all_rate_limited responses MAX_RETRIES 0
      (fun i h1 h2 => h i (by simpa [MAX_RETRIES] using h2))

theorem C7_fetchWithRetry_policy_witness :
    (fetchWithRetryModel (fun _ => FetchR.resp 403)).2 ≤ MAX_RETRIES + 1 ∧
    (fetchWithRetryModel (fun _ => FetchR.resp 403)).1 = FetchResult.rateLimitError :=
  ⟨C7_fetchWithRetry_policy.1 (fun _ => FetchR.resp 403),
   C7_fetchWithRetry_policy.2.2 (fun _ => FetchR.resp 403) (fun _ _ => rfl)⟩

/-- C5: for every skill with source metadata and a source url, the update
operation deletes the skill directory first (the event trace begins with the
delete, and the re-import attempt, when any, comes after), so an importer
that fails leaves the skill uninstalled; and for every provenance type other
than skillssh and git it fails with the cannot-update error without ever
attempting a re-import. -/
theorem C5_update_delete_before_reimport
    (ws : List String) (skill : LoadedSkillR) (src : SkillSourceR) (u : String)
    (catalog : Option CatalogR) (reimport : List String → Except UpdError (List String))
    (hsrc : skill.source = some src) (hurl : src.url = some u) :
    ((updateSkillModel ws skill catalog reimport).events = [UpdEvent.delete] ∨
     (updateSkillModel ws skill catalog reimport).events = [UpdEvent.delete, UpdEvent.reimport]) ∧
    ((∀ w, ∃ er, reimport w = Except.error er) →
      skill.slug ∉ (updateSkillModel ws skill catalog reimport).ws) ∧
    (src.type ≠ "skillssh" → src.type ≠ "git" →
      (updateSkillModel ws skill catalog reimport).result =
        Except.error (UpdError.cannotUpdate src.type) ∧
      UpdEvent.reimport ∉ (updateSkillModel ws skill catalog reimport).events) := by
  simp only [updateSkillModel, hsrc, hurl]
  by_cases h1 : src.type = "skillssh"
  · rw [if_pos h1]
    cases hfind : catalog.bind (fun c => c.skills.find? fun e => e.slug == skill.slug) with
    | none =>
      refine ⟨Or.inl rfl, ?_, ?_⟩
      · intro _
        simp [List.mem_filter]
      · intro h _
        exact absurd h1 h
    | some e =>
      cases hri : reimport (ws.filter fun x => !(x == skill.slug)) with
      | ok ws2 =>
        refine ⟨Or.inr rfl, ?_, ?_⟩
        · intro hfail
          obtain ⟨er, he⟩ := hfail (ws.filter fun x => !(x == skill.slug))
          rw [he] at hri
          cases hri
        · intro h _
          exact absurd h1 h
      | error er =>
        refine ⟨Or.inr rfl, ?_, ?_⟩
        · intro _
          simp [List.mem_filter]
        · intro h _
          exact absurd h1 h
  · rw [if_neg h1]
    by_cases h2 : src.type = "git"
    · rw [if_pos h2]
      cases hri : reimport (ws.filter fun x => !(x == skill.slug)) with
      | ok ws2 =>
        refine ⟨Or.inr rfl, ?_, ?_⟩
        · intro hfail
          obtain ⟨er, he⟩ := hfail (ws.filter fun x => !(x == skill.slug))
          rw [he] at hri
          cases hri
        · intro _ h
          exact absurd h2 h
      | error er =>
        refine ⟨Or.inr rfl, ?_, ?_⟩
        · intro _
          simp [List.mem_filter]
        · intro _ h
          exact absurd h2 h
    · rw [if_neg h2]
      refine ⟨Or.inl rfl, ?_, fun _ _ => ⟨rfl, by simp⟩⟩
      intro _
      simp [List.mem_filter]

theorem C5_update_delete_before_reimport_witness :
    ("a" ∉ (updateSkillModel ["a"]
        { slug := "a", source := some { type := "local", url := some "u" } } none
        (fun _ => Except.error UpdError.importFailed)).ws) ∧
    (updateSkillModel ["a"]
        { slug := "a", source := some { type := "local", url := some "u" } } none
        (fun _ => Except.error UpdError.importFailed)).result =
      Except.error (UpdError.cannotUpdate "local") := by
  have h := C5_update_delete_before_reimport ["a"]
    { slug := "a", source := some { type := "local", url := some "u" } }
    { type := "local", url := some "u" } "u" none
    (fun _ => Except.error UpdError.importFailed) rfl rfl
  exact ⟨h.2.1 (fun w => ⟨UpdError.importFailed, rfl⟩), (h.2.2 (by decide) (by decide)).1⟩

/-- C6 (amended): checkSkillUpdate is a total function (it never throws); for
skillssh provenance it is true exactly when a catalog was supplied whose first
entry of the same slug has a version differing from the stored one; for git
provenance it is false whenever the ls-remote call fails or yields no commit;
and with no source metadata or any other provenance type it is false. -/
theorem C6_checkSkillUpdate_characterization
    (skill : LoadedSkillR) (catalog : Option CatalogR) (ls : Option String) :
    (skill.source = none → checkSkillUpdateModel skill catalog ls = false) ∧
    (∀ src, skill.source = some src →
      (src.type = "skillssh" →
        (checkSkillUpdateModel skill catalog ls = true ↔
          ∃ c e, catalog = some c ∧
            c.skills.find? (fun e2 => e2.slug == skill.slug) = some e ∧
            e.version ≠ src.version)) ∧
      (src.type = "git" →
        (ls = none ∨ ∃ out, ls = some out ∧ gitRemoteShort out = "") →
        checkSkillUpdateModel skill catalog ls = false) ∧
      (src.type ≠ "skillssh" → src.type ≠ "git" →
        checkSkillUpdateModel skill catalog ls = false)) := by
  constructor
  · intro h
    simp [checkSkillUpdateModel, h]
  · intro src hsrc
    refine ⟨?_, ?_, ?_⟩
    · intro ht
      simp only [checkSkillUpdateModel, hsrc]
      rw [if_pos ht]
      cases catalog with
      | none =>
        simp
      | some c =>
        dsimp only
        cases hfind : c.skills.find? (fun e2 => e2.slug == skill.slug) with
        | none =>
          dsimp only
          simp only [Bool.false_eq_true, false_iff]
          rintro ⟨c2, e2, hc2, hf2, _⟩
          rw [Option.some_inj] at hc2
          subst hc2
          rw [hfind] at hf2
          cases hf2
        | some e =>
          dsimp only
          constructor
          · intro hd
            exact ⟨c, e, rfl, hfind, of_decide_eq_true hd⟩
          · rintro ⟨c2, e2, hc2, hf2, hv⟩
            rw [Option.some_inj] at hc2
            subst hc2
            rw [hfind, Option.some_inj] at hf2
            subst hf2
            exact decide_eq_true hv
    · intro ht hls
      simp only [checkSkillUpdateModel, hsrc]
      have hne : src.type = "skillssh" → False := by
        intro he
        rw [he] at ht
        exact absurd ht.symm (by decide)
      rw [if_neg hne, if_pos ht]
      cases hu : src.url with
      | none => rfl
      | some uu =>
        rcases hls with h | ⟨out, hout, hsh⟩
        · rw [h]
        · rw [hout]
          simp [hsh]
    · intro h1 h2
      simp [checkSkillUpdateModel, hsrc, h1, h2]

theorem C6_checkSkillUpdate_characterization_witness :
    checkSkillUpdateModel { slug := "x" } none none = false :=
  (C6_checkSkillUpdate_characterization { slug := "x" } none none).1 rfl

/-- C6 counterexample to the claim as stated: a catalog holding two entries of
the skill slug, the first with the stored version and the second with another
version.  The catalog contains an entry with the same slug whose version
differs from the stored one, yet checkSkillUpdate returns false, because the
code compares against the first matching entry only. -/
theorem C6_counterexample :
    checkSkillUpdateModel cexSkillC6 (some cexCatalogC6) none = false ∧
    ∃ e ∈ cexCatalogC6.skills, e.slug = cexSkillC6.slug ∧ e.version ≠ some "1" ∧
      cexSkillC6.source = some { type := "skillssh", version := some "1" } := by
  refine ⟨by decide, ⟨{ slug := "s", version := some "2" }, ?_, rfl, by decide, rfl⟩⟩
  simp [cexCatalogC6]

/-- C10: when the provenance sidecar exists and parses, the store update
changes only the modified flag: type, url, version, timestamps and the
update-availability field are preserved verbatim; when the sidecar is missing
or unparsable, the provenance is replaced by a fresh local record with the
modified flag set. -/
theorem C10_update_preserves_provenance
    (d : SkillDirM) (f : SkillFileM) (md : SkillMetadataM) (content now : String)
    (hf : d.skillFile = some f) (hn : md.name ≠ "") (hd : md.description ≠ "") :
    (∀ s, d.sidecar = SidecarM.valid s →
      ∃ d2, (updateSkillStoreM (some d) md content now).1 = some d2 ∧
        d2.sidecar = SidecarM.valid { s with modified := some true } ∧
        ({ s with modified := some true } : SkillSourceR).type = s.type ∧
        ({ s with modified := some true } : SkillSourceR).url = s.url ∧
        ({ s with modified := some true } : SkillSourceR).version = s.version ∧
        ({ s with modified := some true } : SkillSourceR).lastChecked = s.lastChecked ∧
        ({ s with modified := some true } : SkillSourceR).updateAvailable = s.updateAvailable ∧
        ({ s with modified := some true } : SkillSourceR).installedAt = s.installedAt ∧
        ({ s with modified := some true } : SkillSourceR).modified = some true) ∧
    ((d.sidecar = SidecarM.missing ∨ d.sidecar = SidecarM.corrupt) →
      ∃ d2, (updateSkillStoreM (some d) md content now).1 = some d2 ∧
        d2.sidecar = SidecarM.valid (freshLocalSource now) ∧
        (freshLocalSource now).type = "local" ∧
        (freshLocalSource now).modified = some true) := by
  constructor
  · intro s hs
    simp only [updateSkillStoreM, hf, hs]
    rw [if_neg (by simp [hn, hd])]
    refine ⟨_, rfl, ?_⟩
    simp
  · intro hs
    rcases hs with hs | hs <;>
    · simp only [updateSkillStoreM, hf, hs]
      rw [if_neg (by simp [hn, hd])]
      refine ⟨_, rfl, ?_⟩
      simp [freshLocalSource]

theorem C10_update_preserves_provenance_witness :
    ∃ d2, (updateSkillStoreM (some exDirC10) { name := "n2", description := "d2" } "c" "t").1 =
        some d2 ∧
      d2.sidecar = SidecarM.valid { exSrcC10 with modified := some true } ∧
      ({ exSrcC10 with modified := some true } : SkillSourceR).type = exSrcC10.type ∧
      ({ exSrcC10 with modified := some true } : SkillSourceR).url = exSrcC10.url ∧
      ({ exSrcC10 with modified := some true } : SkillSourceR).version = exSrcC10.version ∧
      ({ exSrcC10 with modified := some true } : SkillSourceR).lastChecked = exSrcC10.lastChecked ∧
      ({ exSrcC10 with modified := some true } : SkillSourceR).updateAvailable =
        exSrcC10.updateAvailable ∧
      ({ exSrcC10 with modified := some true } : SkillSourceR).installedAt =
        exSrcC10.installedAt ∧
      ({ exSrcC10 with modified := some true } : SkillSourceR).modified = some true :=
  (C10_update_preserves_provenance exDirC10 { fmName := "n", fmDescription := "de", body := "b" }
    { name := "n2", description := "d2" } "c" "t" rfl (by decide) (by decide)).1 exSrcC10 rfl

/-- C4 (amended): for every catalog entry produced by fetchSkillsCatalog, when
the frontmatter regex extracts no name, the display name is the Title-Cased
form of the directory slug; when it does extract a name, the display name is
the Title-Cased form (split on hyphens, capitalize each word, join with
spaces) of that extracted name, not the extracted name itself. -/
theorem C4_catalog_display_name (fm dirName : JStr) :
    (extractNameRaw fm = none → catalogEntryName fm dirName = titleCaseSlug dirName) ∧
    (∀ n, extractNameRaw fm = some n →
      catalogEntryName fm dirName = titleCaseSlug (stripQuotes (trimL n))) := by
  constructor
  · intro h
    simp [catalogEntryName, titleCaseSlug, h]
  · intro n h
    simp [catalogEntryName, titleCaseSlug, h]

theorem C4_catalog_display_name_witness :
    catalogEntryName ("author: x".toList) ("algorithmic-art".toList) =
      titleCaseSlug ("algorithmic-art".toList) ∧
    catalogEntryName ("name: foo-bar".toList) ("dir".toList) =
      titleCaseSlug (stripQuotes (trimL ("foo-bar".toList))) :=
  ⟨(C4_catalog_display_name ("author: x".toList) ("algorithmic-art".toList)).1 (by decide),
   (C4_catalog_display_name ("name: foo-bar".toList) ("dir".toList)).2
     ("foo-bar".toList) (by decide)⟩

/-- C4 counterexample to the claim as stated: the frontmatter name foo-bar is
extracted by the regex parse, yet the entry name is its Title-Cased form
Foo Bar, not the extracted name. -/
theorem C4_counterexample :
    extractNameRaw ("name: foo-bar\ndescription: d".toList) = some ("foo-bar".toList) ∧
    catalogEntryName ("name: foo-bar\ndescription: d".toList) ("dir".toList) =
      ("Foo Bar".toList) ∧
    ("Foo Bar".toList) ≠ ("foo-bar".toList) := by
  decide

/-- C8: for every whitespace-trimmed GitHub tree URL, importSkillFromUrl
imports exactly the named subdirectory of the cloned repository, failing when
that subpath is missing or lacks SKILL.md, and on success the persisted
provenance has type git with url equal to the original tree URL. -/
theorem C8_tree_url_import
    (url : String) (cloneOk : Bool) (repo : JStr → SubpathState) (now : String)
    (g : GhTreeRef) (htrim : trimS url = url)
    (hparse : parseGithubTreeUrl url.toList = some g) :
    (cloneOk = true → repo g.subpath = SubpathState.missing →
      importSkillFromUrlTreeModel url cloneOk repo now =
        TreeImportResult.pathNotFound g.subpath) ∧
    (cloneOk = true → repo g.subpath = SubpathState.noSkillFile →
      importSkillFromUrlTreeModel url cloneOk repo now =
        TreeImportResult.noSkillMdAt g.subpath) ∧
    (cloneOk = true → repo g.subpath = SubpathState.hasSkillFile →
      importSkillFromUrlTreeModel url cloneOk repo now =
        TreeImportResult.imported g.subpath
          { type := "git", url := some url, version := none, lastChecked := none,
            updateAvailable := none, installedAt := some now, modified := none }) := by
  have hp : parseGithubTreeUrl url.data = some g := hparse
  refine ⟨?_, ?_, ?_⟩ <;> intro hc hr <;>
    simp [importSkillFromUrlTreeModel, htrim, hp, hr, hc, mergeSkillSource]

theorem C8_tree_url_import_witness :
    importSkillFromUrlTreeModel "https://github.com/o/r/tree/main/skills/foo" true
        (fun _ => SubpathState.hasSkillFile) "t" =
      TreeImportResult.imported ("skills/foo".toList)
        { type := "git", url := some "https://github.com/o/r/tree/main/skills/foo",
          version := none, lastChecked := none, updateAvailable := none,
          installedAt := some "t", modified := none } :=
  (C8_tree_url_import "https://github.com/o/r/tree/main/skills/foo" true
      (fun _ => SubpathState.hasSkillFile) "t"
      { owner := "o".toList, repo := "r".toList, kind := "tree".toList,
        branch := "main".toList, subpath := "skills/foo".toList }
      (by decide) (by decide)).2.2 rfl rfl

/-- C9 (amended): for every existing skill and every metadata with nonempty
name and description whose icon is absent or accepted by the icon allow-list,
the store update followed by the reload yields exactly the edited metadata and
content with the modified flag set; when name or description is missing the
update raises a validation error and writes nothing.  (A metadata whose icon
is rejected by the allow-list does not round-trip: the icon is dropped.) -/
theorem C9_store_update_round_trip
    (d : SkillDirM) (f : SkillFileM) (md : SkillMetadataM) (content now : String)
    (hf : d.skillFile = some f) :
    (md.name ≠ "" → md.description ≠ "" → validateIconValue md.icon = md.icon →
      ∃ src, (updateSkillStoreM (some d) md content now).2 =
          Except.ok (some { metadata := md, content := content, source := some src }) ∧
        src.modified = some true) ∧
    (md.name = "" ∨ md.description = "" →
      (updateSkillStoreM (some d) md content now).2 = Except.error () ∧
      (updateSkillStoreM (some d) md content now).1 = some d) := by
  constructor
  · intro hn hd hicon
    simp only [updateSkillStoreM, hf]
    rw [if_neg (by simp [hn, hd])]
    cases hs : d.sidecar with
    | valid s =>
      refine ⟨{ s with modified := some true }, ?_, rfl⟩
      simp only [hs, loadSkillM, parseSkillFileM]
      rw [if_neg (by simp [hn, hd])]
      rw [hicon, hicon]
    | missing =>
      refine ⟨freshLocalSource now, ?_, rfl⟩
      simp only [hs, loadSkillM, parseSkillFileM]
      rw [if_neg (by simp [hn, hd])]
      rw [hicon, hicon]
    | corrupt =>
      refine ⟨freshLocalSource now, ?_, rfl⟩
      simp only [hs, loadSkillM, parseSkillFileM]
      rw [if_neg (by simp [hn, hd])]
      rw [hicon, hicon]
  · intro h
    simp only [updateSkillStoreM, hf]
    rw [if_pos h]
    exact ⟨rfl, rfl⟩

theorem C9_store_update_round_trip_witness :
    ∃ src, (updateSkillStoreM (some cexDirC9) { name := "n", description := "d" } "c" "t").2 =
        Except.ok (some { metadata := { name := "n", description := "d" },
                          content := "c",
                          source := some src }) ∧
      src.modified = some true :=
  (C9_store_update_round_trip cexDirC9
    { fmName := "old", fmDescription := "olddesc", body := "oldbody" }
    { name := "n", description := "d" } "c" "t" rfl).1 (by decide) (by decide) (by decide)

/-- C9 counterexample to the claim as stated: editing with an icon value that
is a relative path (rejected by the allow-list) succeeds but reloads without
the icon, so the reloaded metadata is not the edited metadata. -/
theorem C9_counterexample :
    (updateSkillStoreM (some cexDirC9) cexMdC9 "body" "t").2 =
      Except.ok (some { metadata := { name := "a", description := "b" },
                        content := "body",
                        source := some (freshLocalSource "t") }) ∧
    ({ name := "a", description := "b" } : SkillMetadataM) ≠ cexMdC9 := by
  exact ⟨rfl, by decide⟩

theorem isSlugChar_slugMapChar (c : Char) : isSlugChar (slugMapChar c) = true := by
  simp only [slugMapChar]
  split
  · assumption
  · decide

theorem mem_collapseDashes : ∀ (s : JStr) (c : Char), c ∈ collapseDashes s → c ∈ s := by
  intro s
  induction s with
  | nil =>
    intro c h
    simp [collapseDashes] at h
  | cons a t ih =>
    intro c h
    cases t with
    | nil => simpa [collapseDashes] using h
    | cons b rest =>
      simp only [collapseDashes] at h
      split at h
      · exact List.mem_cons_of_mem a (ih c h)
      · rcases List.mem_cons.mp h with h | h
        · exact h ▸ List.mem_cons_self a _
        · exact List.mem_cons_of_mem a (ih c h)

theorem mem_dropDashStart : ∀ (s : JStr) (c : Char), c ∈ dropDashStart s → c ∈ s := by
  intro s c h
  cases s with
  | nil => simp [dropDashStart] at h
  | cons a t =>
    simp only [dropDashStart] at h
    split at h
    · exact List.mem_cons_of_mem a h
    · exact h

theorem mem_stripEdgeDashes (s : JStr) (c : Char) (h : c ∈ stripEdgeDashes s) : c ∈ s := by
  simp only [stripEdgeDashes] at h
  rw [List.mem_reverse] at h
  have h1 := mem_dropDashStart _ _ h
  rw [List.mem_reverse] at h1
  exact mem_dropDashStart _ _ h1

theorem sanitizeSlug_sanitized (s : JStr) : isSanitizedSlug (sanitizeSlug s) = true := by
  simp only [isSanitizedSlug, sanitizeSlug, List.all_eq_true]
  intro c hc
  have h1 := mem_stripEdgeDashes _ _ hc
  have h2 := mem_collapseDashes _ _ h1
  obtain ⟨a, _, rfl⟩ := List.mem_map.mp h2
  exact isSlugChar_slugMapChar a

theorem isSlugChar_digitChar (k : Nat) (h : k < 10) : isSlugChar (digitChar k) = true := by
  interval_cases k <;> decide

theorem natCharsAux_digits :
    ∀ (fuel n : Nat) (c : Char), c ∈ natCharsAux fuel n → isSlugChar c = true := by
  intro fuel
  induction fuel with
  | zero =>
    intro n c h
    simp only [natCharsAux, List.mem_singleton] at h
    exact h ▸ isSlugChar_digitChar _ (Nat.mod_lt _ (by omega))
  | succ f ih =>
    intro n c h
    simp only [natCharsAux] at h
    split at h
    · rw [List.mem_singleton] at h
      exact h ▸ isSlugChar_digitChar n (by omega)
    · rcases List.mem_append.mp h with h | h
      · exact ih _ c h
      · rw [List.mem_singleton] at h
        exact h ▸ isSlugChar_digitChar _ (Nat.mod_lt _ (by omega))

theorem mkCand_sanitized (base : JStr) (k : Nat) (hb : isSanitizedSlug base = true) :
    isSanitizedSlug (mkCand base k) = true := by
  simp only [isSanitizedSlug, mkCand, List.all_eq_true] at hb ⊢
  intro c hc
  rcases List.mem_append.mp hc with h | h
  · exact hb c h
  · rcases List.mem_cons.mp h with h | h
    · exact h ▸ (by decide)
    · exact natCharsAux_digits _ _ c h

theorem resolveAux_sanitized (existing : List JStr) (base : JStr)
    (hb : isSanitizedSlug base = true) :
    ∀ fuel counter, isSanitizedSlug (resolveAux existing base fuel counter) = true := by
  intro fuel
  induction fuel with
  | zero =>
    intro counter
    exact mkCand_sanitized base counter hb
  | succ f ih =>
    intro counter
    simp only [resolveAux]
    split
    · exact ih (counter + 1)
    · exact mkCand_sanitized base counter hb

theorem resolveSlugConflict_sanitized (existing : List JStr) (base : JStr)
    (hb : isSanitizedSlug base = true) :
    isSanitizedSlug (resolveSlugConflict existing base) = true := by
  simp only [resolveSlugConflict]
  split
  · exact resolveAux_sanitized existing base hb _ _
  · exact hb

/-- C3 (amended): the slug stored by a zip, folder or git import, and by a
file import without a caller-supplied hint, consists only of lower-case
alphanumerics and hyphens (the base candidate is sanitized and the conflict
suffix only appends a hyphen and digits).  A non-empty caller-supplied hint of
the file importer (and hence the catalog-entry slug hint the url importer
passes for markdown downloads) is used verbatim, without sanitization. -/
theorem C3_import_slugs_sanitized :
    (∀ existing p, isSanitizedSlug (importSlugFromPathBased existing p) = true) ∧
    (∀ existing u, isSanitizedSlug (importSlugGit existing u) = true) ∧
    (∀ existing p, isSanitizedSlug (importSlugFile existing none p) = true) := by
  refine ⟨?_, ?_, ?_⟩
  · intro existing p
    exact resolveSlugConflict_sanitized existing _ (sanitizeSlug_sanitized _)
  · intro existing u
    exact resolveSlugConflict_sanitized existing _ (sanitizeSlug_sanitized _)
  · intro existing p
    exact resolveSlugConflict_sanitized existing _ (sanitizeSlug_sanitized _)

/-- C3 counterexample to the claim as stated: the file importer uses a
non-empty caller-supplied slug hint verbatim, so a hint carrying traversal
characters is stored unsanitized. -/
theorem C3_counterexample :
    isSanitizedSlug (importSlugFile [] (some ("../evil".toList)) ("SKILL.md".toList)) = false := by
  decide

theorem natCharsAux_lt (n : Nat) (h : n < 10) : ∀ fuel, natCharsAux fuel n = [digitChar n] := by
  intro fuel
  cases fuel with
  | zero => simp [natCharsAux, Nat.mod_eq_of_lt h]
  | succ f => simp [natCharsAux, h]

theorem natCharsAux_fuel_irrel :
    ∀ n f g, n ≤ f → n ≤ g → natCharsAux f n = natCharsAux g n := by
  intro n
  induction n using Nat.strong_induction_on with
  | _ n ih =>
    intro f g hf hg
    by_cases h : n < 10
    · rw [natCharsAux_lt n h, natCharsAux_lt n h]
    · obtain ⟨fp, rfl⟩ : ∃ fp, f = fp + 1 := ⟨f - 1, by omega⟩
      obtain ⟨gp, rfl⟩ : ∃ gp, g = gp + 1 := ⟨g - 1, by omega⟩
      simp only [natCharsAux, if_neg h]
      have hd : n / 10 < n := Nat.div_lt_self (by omega) (by decide)
      congr 1
      exact ih (n / 10) hd fp gp (by omega) (by omega)

theorem natChars_lt (n : Nat) (h : n < 10) : natChars n = [digitChar n] :=
  natCharsAux_lt n h n

theorem natChars_ge (n : Nat) (h : 10 ≤ n) :
    natChars n = natChars (n / 10) ++ [digitChar (n % 10)] := by
  have hd : n / 10 < n := Nat.div_lt_self (by omega) (by decide)
  have h1 : natChars n = natCharsAux ((n - 1) + 1) n :=
    natCharsAux_fuel_irrel n n ((n - 1) + 1) le_rfl (by omega)
  rw [h1]
  simp only [natCharsAux, if_neg (by omega : ¬ n < 10)]
  congr 1
  exact natCharsAux_fuel_irrel (n / 10) (n - 1) (n / 10) (by omega) le_rfl

theorem natChars_ne_nil (n : Nat) : natChars n ≠ [] := by
  by_cases h : n < 10
  · rw [natChars_lt n h]
    simp
  · rw [natChars_ge n (by omega)]
    simp

theorem digitChar_inj (a b : Nat) (ha : a < 10) (hb : b < 10)
    (h : digitChar a = digitChar b) : a = b := by
  interval_cases a <;> interval_cases b <;> revert h <;> decide

theorem append_singleton_inj {α : Type} {xs ys : List α} {x y : α}
    (h : xs ++ [x] = ys ++ [y]) : xs = ys ∧ x = y := by
  have h2 := congrArg List.reverse h
  simp only [List.reverse_append, List.reverse_cons, List.reverse_nil, List.nil_append,
    List.singleton_append] at h2
  injection h2 with h3 h4
  exact ⟨List.reverse_injective h4, h3⟩

theorem natChars_inj : ∀ a b : Nat, natChars a = natChars b → a = b := by
  intro a
  induction a using Nat.strong_induction_on with
  | _ a ih =>
    intro b h
    by_cases ha : a < 10 <;> by_cases hb : b < 10
    · rw [natChars_lt a ha, natChars_lt b hb] at h
      injection h with h1 _
      exact digitChar_inj a b ha hb h1
    · exfalso
      rw [natChars_lt a ha, natChars_ge b (by omega)] at h
      have hl := congrArg List.length h
      simp only [List.length_singleton, List.length_append, List.length_cons,
        List.length_nil] at hl
      have hnn := natChars_ne_nil (b / 10)
      have : (natChars (b / 10)).length = 0 := by omega
      exact hnn (List.length_eq_zero.mp this)
    · exfalso
      rw [natChars_ge a (by omega), natChars_lt b hb] at h
      have hl := congrArg List.length h
      simp only [List.length_singleton, List.length_append, List.length_cons,
        List.length_nil] at hl
      have hnn := natChars_ne_nil (a / 10)
      have : (natChars (a / 10)).length = 0 := by omega
      exact hnn (List.length_eq_zero.mp this)
    · rw [natChars_ge a (by omega), natChars_ge b (by omega)] at h
      obtain ⟨h1, h2⟩ := append_singleton_inj h
      have hdiv := ih (a / 10) (Nat.div_lt_self (by omega) (by decide)) (b / 10) h1
      have hmod := digitChar_inj _ _ (Nat.mod_lt _ (by omega)) (Nat.mod_lt _ (by omega)) h2
      omega

theorem mkCand_inj (base : JStr) (j k : Nat) (h : mkCand base j = mkCand base k) : j = k := by
  simp only [mkCand] at h
  have h2 := List.append_cancel_left h
  injection h2 with _ h3
  exact natChars_inj j k h3

theorem mkCand_ne_base (base : JStr) (k : Nat) : mkCand base k ≠ base := by
  intro h
  have hl := congrArg List.length h
  simp only [mkCand, List.length_append, List.length_cons] at hl
  omega

theorem resolveAux_not_mem (existing : List JStr) (base : JStr) :
    ∀ fuel counter, occCount existing base counter fuel < fuel →
      resolveAux existing base fuel counter ∉ existing := by
  intro fuel
  induction fuel with
  | zero =>
    intro counter h
    omega
  | succ f ih =>
    intro counter h
    simp only [resolveAux]
    split
    · rename_i hmem
      apply ih
      simp only [occCount, if_pos hmem] at h
      omega
    · rename_i hmem
      exact hmem

theorem occCount_le_filter (existing : List JStr) (base : JStr) :
    ∀ fuel counter cap, counter + fuel ≤ cap →
      occCount existing base counter fuel ≤
        ((Finset.range cap).filter (fun k => counter ≤ k ∧ mkCand base k ∈ existing)).card := by
  intro fuel
  induction fuel with
  | zero =>
    intro counter cap _
    simp [occCount]
  | succ f ih =>
    intro counter cap hcap
    simp only [occCount]
    by_cases hmem : mkCand base counter ∈ existing
    · rw [if_pos hmem]
      have hsub : (Finset.range cap).filter
            (fun k => counter + 1 ≤ k ∧ mkCand base k ∈ existing) ⊆
          ((Finset.range cap).filter
            (fun k => counter ≤ k ∧ mkCand base k ∈ existing)).erase counter := by
        intro k hk
        simp only [Finset.mem_filter, Finset.mem_range] at hk
        rw [Finset.mem_erase]
        refine ⟨by omega, ?_⟩
        simp only [Finset.mem_filter, Finset.mem_range]
        exact ⟨hk.1, by omega, hk.2.2⟩
      have hcmem : counter ∈ (Finset.range cap).filter
          (fun k => counter ≤ k ∧ mkCand base k ∈ existing) := by
        simp only [Finset.mem_filter, Finset.mem_range]
        exact ⟨by omega, le_rfl, hmem⟩
      have h1 := ih (counter + 1) cap (by omega)
      have h2 := Finset.card_le_card hsub
      have h3 := Finset.card_erase_of_mem hcmem
      have h4 : 0 < ((Finset.range cap).filter
          (fun k => counter ≤ k ∧ mkCand base k ∈ existing)).card :=
        Finset.card_pos.mpr ⟨counter, hcmem⟩
      omega
    · rw [if_neg hmem]
      have h1 := ih (counter + 1) cap (by omega)
      have hsub : (Finset.range cap).filter
            (fun k => counter + 1 ≤ k ∧ mkCand base k ∈ existing) ⊆
          (Finset.range cap).filter (fun k => counter ≤ k ∧ mkCand base k ∈ existing) := by
        intro k hk
        simp only [Finset.mem_filter, Finset.mem_range] at hk ⊢
        exact ⟨hk.1, by omega, hk.2.2⟩
      have h2 := Finset.card_le_card hsub
      omega

theorem filter_card_le_length (existing : List JStr) (base : JStr) (counter cap : Nat) :
    ((Finset.range cap).filter (fun k => counter ≤ k ∧ mkCand base k ∈ existing)).card ≤
      existing.length := by
  have h1 : ((Finset.range cap).filter
        (fun k => counter ≤ k ∧ mkCand base k ∈ existing)).card ≤
      existing.toFinset.card := by
    apply Finset.card_le_card_of_injOn (fun k => mkCand base k)
    · intro k hk
      simp only [Finset.mem_filter, Finset.mem_range] at hk
      exact List.mem_toFinset.mpr hk.2.2
    · intro j _ k _ hjk
      exact mkCand_inj base j k hjk
  exact h1.trans existing.toFinset_card_le

/-- C2 (amended): the slug produced by conflict resolution never collides with
a slug present in the workspace at the time of import; importing the same
source twice yields two distinct slugs, the first being the base candidate x
(when x is free); and when the suffixed candidate x-1 is also free at the
start, the second import yields exactly x-1.  (When x-1 is already taken by an
unrelated skill, the second import yields the next free x-k instead.) -/
theorem C2_slug_conflict_resolution (existing : List JStr) (base : JStr) :
    resolveSlugConflict existing base ∉ existing ∧
    (base ∉ existing → resolveSlugConflict existing base = base) ∧
    (base ∉ existing → mkCand base 1 ∉ existing →
      resolveSlugConflict (base :: existing) base = mkCand base 1 ∧
      mkCand base 1 ≠ base) := by
  refine ⟨?_, ?_, ?_⟩
  · simp only [resolveSlugConflict]
    split
    · apply resolveAux_not_mem
      have h1 := occCount_le_filter existing base (existing.length + 1) 1
        (existing.length + 2) (by omega)
      have h2 := filter_card_le_length existing base 1 (existing.length + 2)
      omega
    · assumption
  · intro h
    simp [resolveSlugConflict, h]
  · intro h1 h2
    refine ⟨?_, mkCand_ne_base base 1⟩
    simp only [resolveSlugConflict]
    rw [if_pos (List.mem_cons_self base existing)]
    have hlen : (base :: existing).length + 1 = existing.length + 1 + 1 := by simp
    rw [hlen]
    have hnot : mkCand base 1 ∉ base :: existing := by
      intro hc
      rcases List.mem_cons.mp hc with hc | hc
      · exact mkCand_ne_base base 1 hc
      · exact h2 hc
    simp only [resolveAux]
    rw [if_neg hnot]

theorem C2_slug_conflict_resolution_witness :
    resolveSlugConflict [] ("skill".toList) ∉ ([] : List JStr) ∧
    (resolveSlugConflict (("skill".toList) :: []) ("skill".toList) =
        mkCand ("skill".toList) 1 ∧
      mkCand ("skill".toList) 1 ≠ ("skill".toList)) :=
  ⟨(C2_slug_conflict_resolution [] ("skill".toList)).1,
   (C2_slug_conflict_resolution [] ("skill".toList)).2.2 (by decide) (by decide)⟩

/-- C2 counterexample to the claim as stated: in a workspace already holding
skill-1 (but not skill), importing a source with base candidate skill twice
yields the slugs skill and skill-2, not skill and skill-1. -/
theorem C2_counterexample :
    resolveSlugConflict [("skill-1".toList)] ("skill".toList) = ("skill".toList) ∧
    resolveSlugConflict (("skill".toList) :: [("skill-1".toList)]) ("skill".toList) =
      ("skill-2".toList) ∧
    ("skill-2".toList) ≠ ("skill-1".toList) := by
  decide

theorem contains_of_mem {a : String} {l : List String} (h : a ∈ l) :
    l.contains a = true :=
  List.elem_iff.mpr h

theorem buildLinesAux_skip_all (env : WEnv) (us : List String) :
    ∀ (msgs : List SMessage) (parent : Option String),
      (∀ m ∈ msgs, isMsgType m.mtype = true → us.contains m.id = true) →
      buildLinesAux env (some us) msgs parent = [] := by
  intro msgs
  induction msgs with
  | nil =>
    intro parent _
    rfl
  | cons m rest ih =>
    intro parent h
    have hrec := ih (some m.id) (fun x hx hmx => h x (List.mem_cons_of_mem m hx) hmx)
    have hrec2 := ih parent (fun x hx hmx => h x (List.mem_cons_of_mem m hx) hmx)
    by_cases hm : isMsgType m.mtype
    · have hc : m.id ∈ us := List.elem_iff.mp (h m (List.mem_cons_self m rest) hm)
      simp [buildLinesAux, hm, hc, hrec]
    · simp [buildLinesAux, hm, hrec2]

theorem collect_buildLinesAux_none (env : WEnv) :
    ∀ (msgs : List SMessage) (parent : Option String),
      collectExistingUuidsModel (buildLinesAux env none msgs parent) =
        (msgs.filter (fun m => isMsgType m.mtype)).map (fun m => m.id) := by
  intro msgs
  induction msgs with
  | nil =>
    intro parent
    rfl
  | cons m rest ih =>
    intro parent
    by_cases hm : isMsgType m.mtype
    · cases hb : env.gitBranch <;>
        simp [buildLinesAux, hm, hb, collectExistingUuidsModel, convertMessageModel,
          List.filter_cons, List.filterMap_cons] <;>
        simpa [collectExistingUuidsModel] using ih (some m.id)
    · cases hb : env.gitBranch <;>
        simp [buildLinesAux, hm, hb, List.filter_cons] <;>
        simpa [collectExistingUuidsModel] using ih parent

theorem collect_exportFreshFile (env : WEnv) (s : SSession) :
    collectExistingUuidsModel (exportFreshFile env s) =
      (s.messages.filter (fun m => isMsgType m.mtype)).map (fun m => m.id) := by
  unfold exportFreshFile exportFreshLines buildTranscriptLinesModel
  cases ht : normalizeCustomTitleModel s.name <;>
    simp [collectExistingUuidsModel, List.filterMap_append, snapshotEntry,
      buildCustomTitleLineModel] <;>
    simpa [collectExistingUuidsModel] using collect_buildLinesAux_none env s.messages none

theorem exportExisting_newLines_nil (env1 env2 : WEnv) (s : SSession) :
    exportExistingNewLines env2 s (exportFreshFile env1 s) = [] := by
  unfold exportExistingNewLines buildTranscriptLinesModel
  rw [if_neg (by simp)]
  rw [List.nil_append]
  apply buildLinesAux_skip_all
  intro m hm hmt
  apply contains_of_mem
  rw [collect_exportFreshFile]
  exact List.mem_map.mpr ⟨m, List.mem_filter.mpr ⟨hm, hmt⟩, rfl⟩

theorem getLastCustomTitle_append_title (xs : List TEntry) (t : String) :
    getLastCustomTitleModel (xs ++ [buildCustomTitleLineModel t]) = some t := by
  simp [getLastCustomTitleModel, buildCustomTitleLineModel, List.reverse_append]

theorem exportExisting_metaLines_nil (env : WEnv) (s : SSession) :
    exportExistingMetaLines s (exportFreshFile env s) = [] := by
  unfold exportExistingMetaLines exportFreshFile
  cases ht : normalizeCustomTitleModel s.name with
  | none => rfl
  | some t =>
    dsimp only
    rw [if_pos (getLastCustomTitle_append_title _ t)]

theorem countTranscript_append (a b : List TEntry) :
    countTranscriptMessagesModel (a ++ b) =
      countTranscriptMessagesModel a + countTranscriptMessagesModel b := by
  simp [countTranscriptMessagesModel, List.filter_append]

theorem entryCounts_imp_isMsg (e : TEntry) (h : entryCountsAsMessage e = true) :
    isMsgType e.etype = true := by
  by_cases h1 : e.etype == "user"
  · simp [isMsgType, h1]
  · by_cases h2 : e.etype == "assistant"
    · simp [isMsgType, h1, h2]
    · rw [entryCountsAsMessage] at h
      simp [h1, h2] at h

theorem countTranscript_getMessageLines (es : List TEntry) :
    countTranscriptMessagesModel (getMessageLinesModel es) =
      countTranscriptMessagesModel es := by
  simp only [countTranscriptMessagesModel, getMessageLinesModel, List.filter_filter]
  congr 1
  apply List.filter_congr
  intro e _
  by_cases h : entryCountsAsMessage e
  · simp [h, entryCounts_imp_isMsg e h]
  · simp [h]

/-- C1: exporting the same internal session a second time onto the transcript
file written by the first export appends zero new message lines and zero
title-change entries (the title did not change), and the message count
recorded in the per-project session index by the second export equals the
count recorded by the first.  The environments (clock, branch, working
directory) of the two calls may differ arbitrarily. -/
theorem C1_second_export_idempotent (env1 env2 : WEnv) (s : SSession) :
    exportExistingNewLines env2 s (exportFreshFile env1 s) = [] ∧
    exportExistingMetaLines s (exportFreshFile env1 s) = [] ∧
    exportExistingIndexCount env2 s (exportFreshFile env1 s) =
      exportFreshIndexCount env1 s := by
  refine ⟨exportExisting_newLines_nil env1 env2 s, exportExisting_metaLines_nil env1 s, ?_⟩
  unfold exportExistingIndexCount exportExistingFile
  rw [exportExisting_newLines_nil, exportExisting_metaLines_nil]
  simp only [List.append_nil]
  rw [countTranscript_getMessageLines]
  unfold exportFreshFile exportFreshIndexCount
  rw [countTranscript_append]
  cases ht : normalizeCustomTitleModel s.name <;>
    simp [countTranscriptMessagesModel, entryCountsAsMessage, buildCustomTitleLineModel]

end LA
